import Mathlib

/-!
Shallow embedding of the transcription-queue pipeline of the repository
(`db_service.py`, `audio_utils.py`, `audio_service.py`).

The persistent store is the `transcribe_queue` table; a row is a `Job`.
`id` is the autoincrement primary key, so at most one row ever matches a
given id; the SQLAlchemy mutators fetch the first row with the id and
update it, which we model as updating every matching row (equivalent
under primary-key uniqueness, and the enqueue operation below only ever
creates fresh ids).

Sizes and durations are Python floats in the source; they are modelled
as exact rationals.
-/

/-- One row of the `transcribe_queue` table (`models.py` / `db_service.py`). -/
structure Job where
  id : Nat
  user_id : Int
  file_path : String
  file_name : String
  file_size_mb : ℚ
  message_id : Int
  chat_id : Int
  is_active : Bool
  finished : Bool
  cancelled : Bool
  deriving Repr, DecidableEq

/-- `db_service.get_queue`: rows of a user that are neither finished nor
cancelled, in id (insertion) order. -/
def get_queue (user_id : Int) (s : List Job) : List Job :=
  s.filter (fun j => j.user_id == user_id && !j.finished && !j.cancelled)

/-- `db_service.set_active_queue`: if a row with the id exists, set
`is_active := true` on it and return `true`; otherwise return `false`.
The source performs no readiness check. -/
def set_active_queue (id : Nat) (s : List Job) : List Job × Bool :=
  if s.any (fun j => j.id == id) then
    (s.map (fun j => if j.id = id then { j with is_active := true } else j), true)
  else
    (s, false)

/-- `db_service.set_finished_queue`: if a row with the id exists, set
`is_active := false, finished := true` and return `true`; else `false`. -/
def set_finished_queue (id : Nat) (s : List Job) : List Job × Bool :=
  if s.any (fun j => j.id == id) then
    (s.map (fun j => if j.id = id then { j with is_active := false, finished := true } else j),
     true)
  else
    (s, false)

/-- `db_service.set_cancelled_queue`: if a row with the id exists, set
`is_active := false, cancelled := true` and return `true`; else `false`. -/
def set_cancelled_queue (id : Nat) (s : List Job) : List Job × Bool :=
  if s.any (fun j => j.id == id) then
    (s.map (fun j => if j.id = id then { j with is_active := false, cancelled := true } else j),
     true)
  else
    (s, false)

/-- `db_service.reset_active_tasks`: clear `is_active` on every row that is
active and not terminal; return how many rows were reset. -/
def reset_active_tasks (s : List Job) : List Job × Nat :=
  (s.map (fun j =>
      if j.is_active && !j.finished && !j.cancelled then { j with is_active := false } else j),
   (s.filter (fun j => j.is_active && !j.finished && !j.cancelled)).length)

/-- `db_service.get_first_from_queue`: the first (smallest-id) row that is
neither finished, cancelled nor active; the store is kept in insertion
(= id) order. -/
def get_first_from_queue (s : List Job) : Option Job :=
  (s.filter (fun j => !j.finished && !j.cancelled && !j.is_active)).head?

/-- State of the store together with the autoincrement counter. -/
structure QueueState where
  rows : List Job
  nextId : Nat
  deriving Repr, DecidableEq

/-- `db_service.add_to_queue`: insert a fresh ready row. -/
def add_to_queue (user_id : Int) (file_path file_name : String) (file_size_mb : ℚ)
    (message_id chat_id : Int) (st : QueueState) : QueueState :=
  { rows := st.rows ++
      [{ id := st.nextId, user_id := user_id, file_path := file_path, file_name := file_name,
         file_size_mb := file_size_mb, message_id := message_id, chat_id := chat_id,
         is_active := false, finished := false, cancelled := false }],
    nextId := st.nextId + 1 }

/-- The operations a client may issue against the queue store. -/
inductive QueueOp where
  | enqueue (user_id : Int) (file_path file_name : String) (file_size_mb : ℚ)
      (message_id chat_id : Int)
  | claim (id : Nat)
  | finish (id : Nat)
  | cancel (id : Nat)
  | resetActive
  deriving Repr, DecidableEq

/-- One step of the store under a client operation. -/
def applyOp (st : QueueState) : QueueOp → QueueState
  | .enqueue u fp fn sz mid cid => add_to_queue u fp fn sz mid cid st
  | .claim id => { st with rows := (set_active_queue id st.rows).1 }
  | .finish id => { st with rows := (set_finished_queue id st.rows).1 }
  | .cancel id => { st with rows := (set_cancelled_queue id st.rows).1 }
  | .resetActive => { st with rows := (reset_active_tasks st.rows).1 }

/-- Run a sequence of operations from a state. -/
def runOps (st : QueueState) (ops : List QueueOp) : QueueState :=
  ops.foldl applyOp st

/-- The empty store; SQL autoincrement ids start at 1. -/
def initState : QueueState := { rows := [], nextId := 1 }

/-- No row carries both terminal flags (spec invariant I1, as a Boolean check). -/
def noBothTerminal (s : List Job) : Bool :=
  s.all (fun j => !(j.finished && j.cancelled))

/-- An operation is guarded when a terminal transition only targets a row
that is not yet terminal (the discipline the dispatcher follows). -/
def opGuarded (st : QueueState) : QueueOp → Bool
  | .finish id => st.rows.all (fun j => !(j.id == id) || (!j.finished && !j.cancelled))
  | .cancel id => st.rows.all (fun j => !(j.id == id) || (!j.finished && !j.cancelled))
  | _ => true

/-- A whole run is guarded when every terminal transition in it is. -/
def guardedRun : QueueState → List QueueOp → Bool
  | _, [] => true
  | st, op :: ops => opGuarded st op && guardedRun (applyOp st op) ops

/-- Models that need a lot of memory (`audio_utils.should_use_smaller_model`). -/
def heavy_models : List String := ["medium", "large", "large-v2", "large-v3", "turbo"]

/-- `audio_utils.should_use_smaller_model`: downgrade to "small" when the file
exceeds the configured threshold and the current model is heavy. The
threshold `SMALL_MODEL_THRESHOLD_MB` comes from the environment and is a
parameter here. -/
def should_use_smaller_model (small_model_threshold_mb : ℚ) (file_size_mb : ℚ)
    (model_name : String) : Bool × String :=
  if small_model_threshold_mb < file_size_mb && heavy_models.contains model_name then
    (true, "small")
  else
    (false, model_name)

/-- Modelled from the spec: the effective model of §4.4 step 6, written from
the words of the spec ("If `file_size_mb > SMALL_MODEL_THRESHOLD_MB` and
`M₀ ∈ heavy` then effective model `M := \x22small\x22`; else `M := M₀`"),
to be compared with the source function. -/
def spec_effective_model (small_model_threshold_mb : ℚ) (file_size_mb : ℚ)
    (m0 : String) : String :=
  if file_size_mb > small_model_threshold_mb ∧ m0 ∈ heavy_models then "small" else m0

/-- Outcome of one iteration of the dispatcher loop of
`audio_service.background_processor` on the path where
`get_first_from_queue` raises: the store it saw, the number of seconds
slept before the next attempt, and the consecutive-error counter. -/
structure BgErrorTick where
  store : List Job
  sleep_s : Nat
  error_counter : Nat
  deriving Repr, DecidableEq

/-- The `except` branch of the dispatcher loop
(`audio_service.background_processor`): increment the consecutive-error
counter; if it reached `MAX_CONSECUTIVE_ERRORS = 5`, sleep 10 s and zero
the counter; in every case sleep 1 s more and retry. The store is not
touched on this path. -/
def background_error_tick (store : List Job) (error_counter : Nat) : BgErrorTick :=
  let c := error_counter + 1
  if 5 ≤ c then
    { store := store, sleep_s := 10 + 1, error_counter := 0 }
  else
    { store := store, sleep_s := 1, error_counter := c }

/-- State after `n` consecutive failing iterations; `sleep_s` is the sleep
performed by the latest iteration (0 when none ran yet). -/
def run_error_ticks (store : List Job) (error_counter : Nat) : Nat → BgErrorTick
  | 0 => { store := store, sleep_s := 0, error_counter := error_counter }
  | n + 1 =>
    let r := run_error_ticks store error_counter n
    background_error_tick r.store r.error_counter

/-- `audio_service._transcribe_audio_sync`, with the effectful environment
made explicit: `probe k` is the value the `is_task_cancelled` store probe
returns at its k-th call site (0 = before conversion, 1 = before invoking
the engine, 2 = after the engine returns), `file_ok` is whether the input
file exists and is non-empty, `whisper_result` is what the local engine
returns, and `api_result` is the text of the remote API response (`none`
when the response is missing, has no text attribute, or a `none` text).
The function returns `none` to signal a dropped result. -/
def transcribe_audio_sync (use_local_whisper : Bool) (task_id : Option Nat)
    (probe : Nat → Bool) (file_ok : Bool) (whisper_result : String)
    (api_result : Option String) : Option String :=
  if use_local_whisper then
    if task_id.isSome && probe 0 then none
    else if !file_ok then none
    else if task_id.isSome && probe 1 then none
    else if task_id.isSome && probe 2 then none
    else some whisper_result
  else
    if !file_ok then none
    else
      match api_result with
      | none => none
      | some t =>
        let text := t.trim
        if text = "" then some "" else some text

/-- The loop of `audio_service.is_file_fully_uploaded`: starting at probe
index `i` with `k` probes left, every probe must see the file present with
size equal to the size first observed; `probe n` is the pair (file still
present, size) seen at the n-th 2-second probe. -/
def size_stable_from (initial_size : Nat) (probe : Nat → Bool × Nat) : Nat → Nat → Bool
  | _, 0 => true
  | i, k + 1 =>
    (probe i).1 && ((probe i).2 == initial_size) &&
      size_stable_from initial_size probe (i + 1) k

/-- `audio_service.is_file_fully_uploaded` over an explicit observation
trace: the file must exist, its first observed size must be non-zero, its
first byte must be readable, and its size must be unchanged at each of the
`stability_checks` probes taken 2 s apart (each compared to the first
observed size). -/
def is_file_fully_uploaded (exists0 : Bool) (initial_size : Nat) (readable : Bool)
    (stability_checks : Nat) (probe : Nat → Bool × Nat) : Bool :=
  if !exists0 then false
  else if initial_size == 0 then false
  else if !readable then false
  else size_stable_from initial_size probe 0 stability_checks

/-- The per-file decision of `audio_service.monitor_downloads_folder`: a
file is enrolled into the queue only when it is not already processed, has
a media extension, passed the upload-completion check on this cycle, is
non-empty and not oversize. -/
def monitor_enrolls (already_processed : Bool) (is_media_ext : Bool)
    (fully_uploaded : Bool) (file_size : Nat) (max_file_size : Nat) : Bool :=
  if already_processed then false
  else if !is_media_ext then false
  else if !fully_uploaded then false
  else if file_size == 0 then false
  else if max_file_size < file_size then false
  else true

/-- Video extensions recognised by `audio_utils.predict_processing_time`. -/
def video_extensions : List String :=
  [".mp4", ".avi", ".mov", ".mkv", ".webm", ".flv", ".wmv", ".m4v", ".3gp", ".ogv"]

/-- Per-model real-time speed factors of `audio_utils.predict_processing_time`. -/
def speed_factors : List (String × ℚ) :=
  [("tiny", 10), ("base", 6), ("small", 3), ("medium", 2), ("large", 1),
   ("large-v1", 1), ("large-v2", 4/5), ("large-v3", 7/10), ("turbo", 17/10)]

/-- Per-model fixed initialisation costs of `audio_utils.predict_processing_time`. -/
def init_times : List (String × ℚ) :=
  [("tiny", 1), ("base", 2), ("small", 3), ("medium", 5), ("large", 8),
   ("large-v1", 8), ("large-v2", 10), ("large-v3", 12), ("turbo", 10)]

/-- What the `ffprobe` subprocess call inside
`audio_utils.predict_processing_time` did: returned a duration, exited
non-zero, or raised. -/
inductive FfprobeOutcome where
  | ok (duration : ℚ)
  | nonzero_exit
  | probe_error
  deriving Repr, DecidableEq

/-- Truncation toward zero, the behaviour of Python `int()` on a float. -/
def ratTrunc (q : ℚ) : ℤ :=
  if q < 0 then -(Int.floor (-q)) else Int.floor q

/-- ASCII lower-casing, the behaviour of Python `str.lower()` on the
extension and model-name strings that occur here. -/
def lowerAscii (s : String) : String :=
  ⟨s.data.map Char.toLower⟩

/-- `audio_utils.predict_processing_time`. `file_ext` is the extension part
of the path handed to the function (`os.path.splitext(file_path)[1]`) and
`probe` the outcome of the `ffprobe` call on that path; the file size is
taken in MB. Returns whole seconds (the source builds a `timedelta` from
`int(processing_time_seconds)`). -/
def predict_processing_time (file_ext : String) (file_size_mb : ℚ)
    (probe : FfprobeOutcome) (model_name : String) : ℤ :=
  let is_video_file := video_extensions.contains (lowerAscii file_ext)
  let audio_duration_seconds : ℚ :=
    match probe with
    | .ok d => d
    | .nonzero_exit => if is_video_file then file_size_mb * 20 else file_size_mb * 60
    | .probe_error => if is_video_file then file_size_mb * 27 else file_size_mb * 60
  let speed_factor := (speed_factors.lookup (lowerAscii model_name)).getD 2
  let init_time := (init_times.lookup (lowerAscii model_name)).getD 5
  let size_penalty : ℚ := if 15 < file_size_mb then 1 + (file_size_mb - 15) * (3/200) else 1
  let processing_time_seconds := audio_duration_seconds / speed_factor * size_penalty + init_time
  ratTrunc (processing_time_seconds * (21/20))

/-- The sentinel `user_id` under which the downloads watcher enrolls jobs
(`audio_service.DOWNLOADS_USER_ID`). -/
def DOWNLOADS_USER_ID : Int := 0

/-- The cancellation loops of `audio_service.cancel_audio_processing`: for
each task of the fetched queue call `set_cancelled_queue`, and when it
returns true also kill its transcription process (`killed` collects the
ids whose processes were killed). -/
def cancelLoop : List Job → List Job → List Nat → List Job × List Nat
  | [], s, killed => (s, killed)
  | t :: ts, s, killed =>
    let r := set_cancelled_queue t.id s
    if r.2 then cancelLoop ts r.1 (killed ++ [t.id])
    else cancelLoop ts r.1 killed

/-- `audio_service.cancel_audio_processing`: cancel every job of
`get_queue user_id`; then, when the caller is a superuser, also cancel
every job of `get_queue DOWNLOADS_USER_ID` as seen after the first loop.
Returns the resulting store and the ids whose transcription processes were
killed. -/
def cancel_audio_processing (superusers : List Int) (user_id : Int) (s : List Job) :
    List Job × List Nat :=
  let r1 := cancelLoop (get_queue user_id s) s []
  if user_id ∈ superusers then
    cancelLoop (get_queue DOWNLOADS_USER_ID r1.1) r1.1 r1.2
  else
    r1

/-- A freshly enqueued, non-terminal row used in concrete instances. -/
def readyRow : Job :=
  { id := 1, user_id := 7, file_path := "/tmp/a.mp3", file_name := "a.mp3",
    file_size_mb := 1, message_id := 10, chat_id := 20,
    is_active := false, finished := false, cancelled := false }

/-- A row already marked finished, used in concrete instances. -/
def finishedRow : Job := { readyRow with finished := true }

/-- A row that is simultaneously active and finished, used in concrete
instances; such a row is produced by claiming a finished row. -/
def activeFinishedRow : Job := { readyRow with is_active := true, finished := true }

/-- C5: the downgrade decision of `should_use_smaller_model` picks "small"
exactly when the file is strictly larger than the threshold and the
default model is heavy, returns the default model otherwise, and a file
exactly at the threshold keeps the default model. -/
theorem should_use_smaller_model_correct (thr S : ℚ) (M : String) :
    (should_use_smaller_model thr S M).2 = spec_effective_model thr S M ∧
    ((should_use_smaller_model thr S M).1 = true ↔ S > thr ∧ M ∈ heavy_models) ∧
    should_use_smaller_model thr thr M = (false, M) := by
  refine ⟨?_, ?_, ?_⟩
  · by_cases h1 : thr < S <;> by_cases h2 : M ∈ heavy_models <;>
      simp [should_use_smaller_model, spec_effective_model, h1, h2]
  · by_cases h1 : thr < S <;> by_cases h2 : M ∈ heavy_models <;>
      simp [should_use_smaller_model, h1, h2]
  · simp [should_use_smaller_model, lt_irrefl]

/-- Witness: a 20 MB file at threshold 20 with heavy default keeps the default. -/
theorem should_use_smaller_model_correct_witness :
    should_use_smaller_model 20 20 "large-v3" = (false, "large-v3") :=
  (should_use_smaller_model_correct 20 20 "large-v3").2.2

/-- C6 counterexample: after five consecutive store errors the dispatcher
sleeps 11 seconds (10 s backoff plus the regular 1 s pause) before the
next attempt, not at least 30 seconds. -/
theorem background_backoff_not_30s :
    (run_error_ticks [readyRow] 0 5).sleep_s = 11 ∧
    ¬(30 ≤ (run_error_ticks [readyRow] 0 5).sleep_s) := by decide

/-- C6 amended: starting from a zero error counter, on the fifth
consecutive store error the dispatcher sleeps 11 seconds (a 10 s backoff
plus the regular 1 s retry pause) before the sixth attempt and resets the
counter to zero; the store is untouched, so no job changes state during
the outage. -/
theorem background_backoff_correct (s : List Job) :
    run_error_ticks s 0 5 = { store := s, sleep_s := 11, error_counter := 0 } := by
  rfl

/-- C7 counterexample: with the remote API backend configured, a task whose
cancellation flag is permanently set still yields a transcription result,
so the cancellation probe is not honoured on that backend. -/
theorem transcribe_api_ignores_cancellation :
    transcribe_audio_sync false (some 1) (fun _ => true) true "w" (some "hello") ≠
      none := by
  simp only [transcribe_audio_sync, Bool.false_eq_true, if_false, Bool.not_true,
    Bool.not_false, if_true]
  split <;> simp

/-- C7 amended: with the local engine configured and a task id present, the
runner returns `none` whenever the cancellation probe reports true at any
of its three checkpoints (before conversion, before invoking the engine,
after the engine returns); the remote API branch performs no cancellation
checks. -/
theorem transcribe_local_honours_cancellation (tid : Nat) (probe : Nat → Bool)
    (file_ok : Bool) (w : String) (api : Option String)
    (h : probe 0 = true ∨ probe 1 = true ∨ probe 2 = true) :
    transcribe_audio_sync true (some tid) probe file_ok w api = none := by
  rcases h with h | h | h <;>
    cases h0 : probe 0 <;> cases h1 : probe 1 <;> cases h2 : probe 2 <;>
    cases fo : file_ok <;> simp_all [transcribe_audio_sync]

/-- Witness: a cancelled task under the local engine produces no result. -/
theorem transcribe_local_honours_cancellation_witness :
    transcribe_audio_sync true (some 3) (fun _ => true) true "w" none = none :=
  transcribe_local_honours_cancellation 3 (fun _ => true) true "w" none (Or.inl rfl)

/-- Membership form of the I1 check. -/
theorem noBothTerminal_eq_true (s : List Job) :
    noBothTerminal s = true ↔ ∀ j ∈ s, j.finished = true → j.cancelled = false := by
  unfold noBothTerminal
  rw [List.all_eq_true]
  refine ⟨fun h j hj hf => ?_, fun h j hj => ?_⟩
  · have := h j hj
    rw [hf] at this
    simpa using this
  · cases hf : j.finished <;> simp [hf, h j hj]

/-- The store part of `set_active_queue` is a per-row update (the identity
when no row matches). -/
theorem set_active_queue_fst (id : Nat) (s : List Job) :
    (set_active_queue id s).1 =
      s.map (fun j => if j.id = id then { j with is_active := true } else j) := by
  unfold set_active_queue
  split
  · rfl
  · next h =>
    have hid : ∀ j ∈ s, ¬(j.id = id) := by
      intro j hj hj'
      exact h (List.any_eq_true.mpr ⟨j, hj, by simp [hj']⟩)
    have hcongr : ∀ j ∈ s, (if j.id = id then ({ j with is_active := true } : Job) else j) = j :=
      fun j hj => if_neg (hid j hj)
    simpa using (List.map_congr_left hcongr).symm

/-- The store part of `set_finished_queue` is a per-row update. -/
theorem set_finished_queue_fst (id : Nat) (s : List Job) :
    (set_finished_queue id s).1 =
      s.map (fun j => if j.id = id then { j with is_active := false, finished := true } else j) := by
  unfold set_finished_queue
  split
  · rfl
  · next h =>
    have hid : ∀ j ∈ s, ¬(j.id = id) := by
      intro j hj hj'
      exact h (List.any_eq_true.mpr ⟨j, hj, by simp [hj']⟩)
    have hcongr : ∀ j ∈ s,
        (if j.id = id then ({ j with is_active := false, finished := true } : Job) else j) = j :=
      fun j hj => if_neg (hid j hj)
    simpa using (List.map_congr_left hcongr).symm

/-- The store part of `set_cancelled_queue` is a per-row update. -/
theorem set_cancelled_queue_fst (id : Nat) (s : List Job) :
    (set_cancelled_queue id s).1 =
      s.map (fun j => if j.id = id then { j with is_active := false, cancelled := true } else j) := by
  unfold set_cancelled_queue
  split
  · rfl
  · next h =>
    have hid : ∀ j ∈ s, ¬(j.id = id) := by
      intro j hj hj'
      exact h (List.any_eq_true.mpr ⟨j, hj, by simp [hj']⟩)
    have hcongr : ∀ j ∈ s,
        (if j.id = id then ({ j with is_active := false, cancelled := true } : Job) else j) = j :=
      fun j hj => if_neg (hid j hj)
    simpa using (List.map_congr_left hcongr).symm

/-- Each guarded step preserves I1. -/
theorem applyOp_preserves_noBoth (st : QueueState) (op : QueueOp)
    (h : noBothTerminal st.rows = true) (hg : opGuarded st op = true) :
    noBothTerminal (applyOp st op).rows = true := by
  rw [noBothTerminal_eq_true] at h ⊢
  cases op with
  | enqueue u fp fn sz mid cid =>
    intro j hj
    simp only [applyOp, add_to_queue, List.mem_append, List.mem_singleton] at hj
    rcases hj with hj | rfl
    · exact h j hj
    · intro hf
      simp at hf
  | claim id =>
    intro j' hj'
    simp only [applyOp, set_active_queue_fst, List.mem_map] at hj'
    obtain ⟨j, hj, rfl⟩ := hj'
    split <;> exact h j hj
  | finish id =>
    intro j' hj'
    simp only [applyOp, set_finished_queue_fst, List.mem_map] at hj'
    obtain ⟨j, hj, rfl⟩ := hj'
    simp only [opGuarded, List.all_eq_true] at hg
    split
    · next heq =>
      have := hg j hj
      rw [heq] at this
      simp only [beq_self_eq_true, Bool.not_true, Bool.false_or, Bool.and_eq_true,
        Bool.not_eq_true'] at this
      intro _
      exact this.2
    · exact h j hj
  | cancel id =>
    intro j' hj'
    simp only [applyOp, set_cancelled_queue_fst, List.mem_map] at hj'
    obtain ⟨j, hj, rfl⟩ := hj'
    simp only [opGuarded, List.all_eq_true] at hg
    split
    · next heq =>
      have := hg j hj
      rw [heq] at this
      simp only [beq_self_eq_true, Bool.not_true, Bool.false_or, Bool.and_eq_true,
        Bool.not_eq_true'] at this
      intro hf
      rw [this.1] at hf
      simp at hf
    · exact h j hj
  | resetActive =>
    intro j' hj'
    simp only [applyOp, reset_active_tasks, List.mem_map] at hj'
    obtain ⟨j, hj, rfl⟩ := hj'
    split <;> exact h j hj

/-- A guarded run from an I1 state ends in an I1 state. -/
theorem guardedRun_preserves_noBoth (ops : List QueueOp) :
    ∀ st : QueueState, noBothTerminal st.rows = true → guardedRun st ops = true →
      noBothTerminal (runOps st ops).rows = true := by
  induction ops with
  | nil =>
    intro st h _
    simpa [runOps] using h
  | cons op ops ih =>
    intro st h hg
    simp only [guardedRun, Bool.and_eq_true] at hg
    have hstep := applyOp_preserves_noBoth st op h hg.1
    have : runOps st (op :: ops) = runOps (applyOp st op) ops := rfl
    rw [this]
    exact ih (applyOp st op) hstep hg.2

/-- A trace that enqueues one job, finishes it, then cancels it. -/
def cancelAfterFinishOps : List QueueOp :=
  [.enqueue 7 "/tmp/a.mp3" "a.mp3" 1 10 20, .finish 1, .cancel 1]

/-- A trace that enqueues one job, claims it, then finishes it. -/
def happyPathOps : List QueueOp :=
  [.enqueue 7 "/tmp/a.mp3" "a.mp3" 1 10 20, .claim 1, .finish 1]

/-- C1 counterexample: the state reached by enqueue, finish, cancel has a
row with `finished = true` and `cancelled = true`: `set_cancelled_queue`
applied to a finished row does produce such a state. -/
theorem cancel_after_finish_breaks_I1 :
    noBothTerminal (runOps initState cancelAfterFinishOps).rows = false := by decide

/-- C1 amended: the invariant holds for every run in which finish and
cancel are only ever applied to rows that are not yet terminal (the
discipline the callers follow on the happy path); under that guard no
reachable state has a row with both terminal flags set. -/
theorem guarded_runs_satisfy_I1 (ops : List QueueOp)
    (hg : guardedRun initState ops = true) :
    noBothTerminal (runOps initState ops).rows = true :=
  guardedRun_preserves_noBoth ops initState (by decide) hg

/-- Witness: the guarded happy-path trace keeps the invariant. -/
theorem guarded_runs_satisfy_I1_witness :
    noBothTerminal (runOps initState happyPathOps).rows = true :=
  guarded_runs_satisfy_I1 happyPathOps (by decide)

/-- C2 counterexample: `set_active_queue` applied to a finished row does
not leave it unchanged and return false; it marks the row active (giving
`is_active = true` together with `finished = true`) and returns true. -/
theorem set_active_on_finished_row :
    set_active_queue 1 [finishedRow] =
      ([{ finishedRow with is_active := true }], true) := by decide

/-- C2 amended: `set_active_queue` marks the row active and returns true
whenever a row with the id exists, with no readiness check at all (even a
finished or cancelled row is marked active); it never changes the
`finished` or `cancelled` flags. -/
theorem set_active_queue_unguarded (s : List Job) (id : Nat) (j : Job)
    (hj : j ∈ s) (hid : j.id = id) :
    (set_active_queue id s).2 = true ∧
    { j with is_active := true } ∈ (set_active_queue id s).1 ∧
    (set_active_queue id s).1.map (fun r => (r.finished, r.cancelled)) =
      s.map (fun r => (r.finished, r.cancelled)) := by
  refine ⟨?_, ?_, ?_⟩
  · unfold set_active_queue
    rw [if_pos (List.any_eq_true.mpr ⟨j, hj, by simp [hid]⟩)]
  · rw [set_active_queue_fst]
    have : ({ j with is_active := true } : Job) =
        (fun r : Job => if r.id = id then { r with is_active := true } else r) j := by
      simp [hid]
    rw [this]
    exact List.mem_map_of_mem _ hj
  · rw [set_active_queue_fst, List.map_map]
    apply List.map_congr_left
    intro r _
    by_cases h : r.id = id <;> simp [h]

/-- Witness: marking a finished row active succeeds. -/
theorem set_active_queue_unguarded_witness :
    (set_active_queue 1 [finishedRow]).2 = true :=
  (set_active_queue_unguarded [finishedRow] 1 finishedRow (by decide) (by decide)).1

/-- C3 counterexample: cancel after finish is not a no-op returning false:
it returns true and sets `cancelled` on the finished row. -/
theorem cancel_after_finish_changes_row :
    (set_cancelled_queue 1 (set_finished_queue 1 [readyRow]).1).2 = true ∧
    (set_cancelled_queue 1 (set_finished_queue 1 [readyRow]).1).1.all
      (fun j => j.cancelled) = true := by decide

/-- C3 amended: `set_finished_queue` and `set_cancelled_queue` return true
whenever a row with the id exists — also on already-terminal rows — and
false only when no row matches; repeating the same operation leaves the
store unchanged after the first call (a second finish has the same effect
on the state as one), but a cancel after a finish is not a no-op (see the
counterexample). -/
theorem terminal_setters_semantics (s : List Job) (id : Nat) :
    (set_finished_queue id s).2 = s.any (fun j => j.id == id) ∧
    (set_cancelled_queue id s).2 = s.any (fun j => j.id == id) ∧
    (set_finished_queue id (set_finished_queue id s).1).1 = (set_finished_queue id s).1 ∧
    (set_cancelled_queue id (set_cancelled_queue id s).1).1 = (set_cancelled_queue id s).1 := by
  refine ⟨?_, ?_, ?_, ?_⟩
  · unfold set_finished_queue
    split
    · next h => simp [h]
    · next h =>
      have h' : (s.any fun j => j.id == id) = false := by simpa using h
      simp [h']
  · unfold set_cancelled_queue
    split
    · next h => simp [h]
    · next h =>
      have h' : (s.any fun j => j.id == id) = false := by simpa using h
      simp [h']
  · simp only [set_finished_queue_fst, List.map_map]
    apply List.map_congr_left
    intro r _
    by_cases h : r.id = id <;> simp [Function.comp, h]
  · simp only [set_cancelled_queue_fst, List.map_map]
    apply List.map_congr_left
    intro r _
    by_cases h : r.id = id <;> simp [Function.comp, h]

/-- C4 counterexample: a store holding a row that is both active and
finished still has an active row after `reset_active_tasks`, because the
reset only touches rows that are active and not terminal. -/
theorem reset_active_misses_terminal_rows :
    (reset_active_tasks [activeFinishedRow]).1.any (fun j => j.is_active) = true := by decide

/-- C4 amended: after `reset_active_tasks` no non-terminal row is active
(every active row that is neither finished nor cancelled is reset), and
the operation changes no `finished` or `cancelled` flag. -/
theorem reset_active_tasks_correct (s : List Job) :
    (∀ j ∈ (reset_active_tasks s).1,
        j.finished = false → j.cancelled = false → j.is_active = false) ∧
    (reset_active_tasks s).1.map (fun j => (j.finished, j.cancelled)) =
      s.map (fun j => (j.finished, j.cancelled)) := by
  constructor
  · intro j' hj'
    simp only [reset_active_tasks, List.mem_map] at hj'
    obtain ⟨j, hj, rfl⟩ := hj'
    split
    · intro _ _
      rfl
    · next h =>
      intro hf hc
      simp only [Bool.and_eq_true, Bool.not_eq_true'] at h
      by_contra hact
      exact h ⟨⟨by simpa using hact, hf⟩, hc⟩
  · simp only [reset_active_tasks, List.map_map]
    apply List.map_congr_left
    intro r _
    simp only [Function.comp]
    split <;> simp

/-- Witness: the reset preserves the terminal flags of a concrete store. -/
theorem reset_active_tasks_correct_witness :
    (reset_active_tasks [activeFinishedRow]).1.map (fun j => (j.finished, j.cancelled)) =
      [activeFinishedRow].map (fun j => (j.finished, j.cancelled)) :=
  (reset_active_tasks_correct [activeFinishedRow]).2

/-- If the stability loop succeeds, every probe it made saw the file
present with the initial size. -/
theorem size_stable_from_all (s0 : Nat) (probe : Nat → Bool × Nat) :
    ∀ k i, size_stable_from s0 probe i k = true →
      ∀ d, d < k → probe (i + d) = (true, s0) := by
  intro k
  induction k with
  | zero =>
    intro i _ d hd
    exact absurd hd (Nat.not_lt_zero d)
  | succ k ih =>
    intro i h d hd
    simp only [size_stable_from, Bool.and_eq_true, beq_iff_eq] at h
    rcases d with _ | d
    · have h1 := h.1.1
      have h2 := h.1.2
      simp only [Nat.add_zero]
      exact Prod.ext h1 h2
    · have : i + (d + 1) = (i + 1) + d := by omega
      rw [this]
      exact ih (i + 1) h.2 d (by omega)

/-- C8: the watcher enrolls a file only when the upload-completion check
succeeded; the check succeeds only when the first observed size is
non-zero, the first byte was readable, and every 2-second probe saw the
file present at the first observed size; hence a file of size 0 is never
enrolled, and a file whose size differs between two consecutive probes of
the cycle is not enrolled on that cycle. -/
theorem watcher_enrolls_only_stable_uploads
    (e0 : Bool) (s0 : Nat) (r : Bool) (n : Nat) (probe : Nat → Bool × Nat)
    (p m : Bool) (sz mx : Nat) :
    (monitor_enrolls p m (is_file_fully_uploaded e0 s0 r n probe) sz mx = true →
      is_file_fully_uploaded e0 s0 r n probe = true) ∧
    (is_file_fully_uploaded e0 s0 r n probe = true →
      s0 ≠ 0 ∧ r = true ∧ ∀ i, i < n → probe i = (true, s0)) ∧
    (s0 = 0 → monitor_enrolls p m (is_file_fully_uploaded e0 s0 r n probe) sz mx = false) ∧
    (∀ i, i + 1 < n → (probe i).2 ≠ (probe (i + 1)).2 →
      monitor_enrolls p m (is_file_fully_uploaded e0 s0 r n probe) sz mx = false) := by
  have henroll : ∀ b : Bool, monitor_enrolls p m b sz mx = true → b = true := by
    intro b
    unfold monitor_enrolls
    cases p <;> cases m <;> cases b <;> simp
  have hnec : is_file_fully_uploaded e0 s0 r n probe = true →
      s0 ≠ 0 ∧ r = true ∧ ∀ i, i < n → probe i = (true, s0) := by
    intro h
    unfold is_file_fully_uploaded at h
    cases e0 with
    | false => simp at h
    | true =>
      cases hz : s0 == 0 with
      | true => rw [hz] at h; simp at h
      | false =>
        rw [hz] at h
        cases r with
        | false => simp at h
        | true =>
          simp at h
          refine ⟨by simpa using hz, rfl, fun i hi => ?_⟩
          have := size_stable_from_all s0 probe n 0 h i hi
          simpa using this
  have hfalse : ∀ b : Bool, b ≠ true → monitor_enrolls p m b sz mx = false := by
    intro b hb
    cases hm : monitor_enrolls p m b sz mx with
    | false => rfl
    | true => exact absurd (henroll b hm) hb
  refine ⟨henroll _, hnec, ?_, ?_⟩
  · intro hz
    apply hfalse
    intro hup
    exact (hnec hup).1 hz
  · intro i hi hne
    apply hfalse
    intro hup
    have hall := (hnec hup).2.2
    have h1 := hall i (by omega)
    have h2 := hall (i + 1) hi
    rw [h1, h2] at hne
    exact hne rfl

/-- Witness: a file observed empty is not enrolled. -/
theorem watcher_enrolls_only_stable_uploads_witness :
    monitor_enrolls false true (is_file_fully_uploaded true 0 true 3 (fun _ => (true, 0)))
      4 100 = false :=
  (watcher_enrolls_only_stable_uploads true 0 true 3 (fun _ => (true, 0)) false true 4 100).2.2.1
    rfl

/-- Modelled from the spec (§4.4.1): the claimed estimate
`((D / f_M) × p + i_M) × 1.05`, written from the words of the spec, to be
compared with the source function. -/
def spec_estimate (D f_M p i_M : ℚ) : ℚ :=
  (D / f_M * p + i_M) * (21 / 20)

/-- Modelled from the spec (§4.4.1): the duration estimate, preferring the
probed duration and otherwise scaling the file size (60 s/MB for audio
sources, 20 or 27 s/MB for video sources depending on how the probe
failed). -/
def spec_duration (is_video : Bool) (S : ℚ) (probe : FfprobeOutcome) : ℚ :=
  match probe with
  | .ok d => d
  | .nonzero_exit => S * (if is_video then 20 else 60)
  | .probe_error => S * (if is_video then 27 else 60)

/-- Modelled from the spec (§4.4.1): the size penalty
`p = 1 + max(0, S − 15) × 0.015`. -/
def spec_size_penalty (S : ℚ) : ℚ :=
  1 + max 0 (S - 15) * (3 / 200)

/-- C9 counterexample: for a 1 MB audio file with probed duration 10 s and
model "tiny" the claimed formula gives 2.1 seconds, but the function
returns 2 whole seconds (the source truncates with `int()`), so the
returned value is not `((D / f_M) × p + i_M) × 1.05` seconds. -/
theorem predict_truncates_fractional_seconds :
    spec_estimate 10 10 1 1 = 21 / 10 ∧
    predict_processing_time ".mp3" 1 (.ok 10) "tiny" = 2 ∧
    ((2 : ℚ) ≠ 21 / 10) := by
  refine ⟨by norm_num [spec_estimate], ?_, by norm_num⟩
  have hext : lowerAscii ".mp3" = ".mp3" := by decide
  have hmod : lowerAscii "tiny" = "tiny" := by decide
  have hvid : video_extensions.contains ".mp3" = false := by decide
  unfold predict_processing_time
  rw [hext, hmod, hvid]
  norm_num [speed_factors, init_times, List.lookup, ratTrunc]

/-- C9 amended: the predictor returns the spec formula truncated to whole
seconds, `⌊((D / f_M) × p + i_M) × 1.05⌋`, with the duration fallback and
the size penalty `p = 1 + max(0, S − 15) × 0.015` exactly as the spec
states them, and with video-ness determined from the extension of the
path handed to the function (the on-disk path). -/
theorem predict_processing_time_matches_spec (ext : String) (S : ℚ)
    (pr : FfprobeOutcome) (M : String) :
    predict_processing_time ext S pr M =
      ratTrunc (spec_estimate
        (spec_duration (video_extensions.contains (lowerAscii ext)) S pr)
        ((speed_factors.lookup (lowerAscii M)).getD 2)
        (spec_size_penalty S)
        ((init_times.lookup (lowerAscii M)).getD 5)) := by
  unfold predict_processing_time spec_estimate spec_duration spec_size_penalty
  apply congrArg ratTrunc
  rcases le_or_lt S 15 with h | h
  · have hmax : max 0 (S - 15) = 0 := max_eq_left (by linarith)
    rw [hmax, if_neg (not_lt.mpr h)]
    cases pr <;> cases video_extensions.contains (lowerAscii ext) <;> simp
  · have hmax : max 0 (S - 15) = S - 15 := max_eq_right (by linarith)
    rw [hmax, if_pos h]
    cases pr <;> cases video_extensions.contains (lowerAscii ext) <;> simp

/-- The row update performed by `set_cancelled_queue` on the matching row. -/
def cancelJob (j : Job) : Job :=
  { j with is_active := false, cancelled := true }

/-- The row update applied by a whole cancellation loop over a set of ids. -/
def cancelByIds (ids : List Nat) (j : Job) : Job :=
  if j.id ∈ ids then cancelJob j else j

/-- The cancellation update never changes a row's id. -/
theorem cancelByIds_id (ids : List Nat) (j : Job) : (cancelByIds ids j).id = j.id := by
  unfold cancelByIds
  split <;> rfl

/-- Unfolding one step of the cancellation loop. -/
theorem cancelLoop_cons (t : Job) (ts s : List Job) (killed : List Nat) :
    cancelLoop (t :: ts) s killed =
      cancelLoop ts (set_cancelled_queue t.id s).1
        (if (set_cancelled_queue t.id s).2 then killed ++ [t.id] else killed) := by
  simp only [cancelLoop]
  split <;> simp_all

/-- The store left by a cancellation loop: every row whose id occurs among
the looped tasks is cancelled, the rest are untouched. -/
theorem cancelLoop_store (tasks : List Job) :
    ∀ (s : List Job) (killed : List Nat),
      (cancelLoop tasks s killed).1 = s.map (cancelByIds (tasks.map Job.id)) := by
  induction tasks with
  | nil =>
    intro s killed
    have hid : ∀ j ∈ s, cancelByIds [] j = j := by
      intro j _
      simp [cancelByIds]
    simp only [List.map_nil]
    rw [show (cancelLoop [] s killed).1 = s from rfl, List.map_congr_left hid]
    simp
  | cons t ts ih =>
    intro s killed
    rw [cancelLoop_cons, ih, set_cancelled_queue_fst, List.map_map]
    apply List.map_congr_left
    intro j _
    simp only [Function.comp, List.map_cons]
    by_cases h : j.id = t.id
    · rw [if_pos h]
      show cancelByIds (ts.map Job.id) (cancelJob j) = cancelByIds (t.id :: ts.map Job.id) j
      have hcons : j.id ∈ t.id :: ts.map Job.id := by
        rw [h]
        exact List.mem_cons_self _ _
      unfold cancelByIds
      rw [if_pos hcons]
      by_cases h2 : j.id ∈ ts.map Job.id
      · rw [if_pos (show (cancelJob j).id ∈ ts.map Job.id from by simpa [cancelJob] using h2)]
        rfl
      · rw [if_neg (show ¬(cancelJob j).id ∈ ts.map Job.id from by simpa [cancelJob] using h2)]
    · rw [if_neg h]
      show cancelByIds (ts.map Job.id) j = cancelByIds (t.id :: ts.map Job.id) j
      unfold cancelByIds
      by_cases h2 : j.id ∈ ts.map Job.id
      · rw [if_pos h2, if_pos (List.mem_cons_of_mem _ h2)]
      · rw [if_neg h2, if_neg (by simp [h, h2])]

/-- The processes killed by a cancellation loop whose tasks all exist in
the store: exactly the looped ids, appended in order. -/
theorem cancelLoop_killed (tasks : List Job) :
    ∀ (s : List Job) (killed : List Nat),
      (∀ t ∈ tasks, ∃ j ∈ s, j.id = t.id) →
      (cancelLoop tasks s killed).2 = killed ++ tasks.map Job.id := by
  induction tasks with
  | nil =>
    intro s killed _
    simp [cancelLoop]
  | cons t ts ih =>
    intro s killed hex
    obtain ⟨j, hj, hid⟩ := hex t (by simp)
    have ht : (set_cancelled_queue t.id s).2 = true := by
      unfold set_cancelled_queue
      rw [if_pos (List.any_eq_true.mpr ⟨j, hj, by simp [hid]⟩)]
    rw [cancelLoop_cons, ht, if_pos rfl, ih]
    · simp
    · intro t' ht'
      obtain ⟨j', hj', hid'⟩ := hex t' (List.mem_cons_of_mem _ ht')
      rw [set_cancelled_queue_fst]
      refine ⟨if j'.id = t.id then { j' with is_active := false, cancelled := true } else j',
        List.mem_map_of_mem _ hj', ?_⟩
      by_cases h : j'.id = t.id
      · rw [if_pos h]
        exact hid'
      · rw [if_neg h]
        exact hid'

/-- Cancelling an already-cancelled row changes nothing. -/
theorem cancelByIds_cancelJob (ids : List Nat) (x : Job) :
    cancelByIds ids (cancelJob x) = cancelJob x := by
  unfold cancelByIds
  split <;> rfl

/-- Rows fetched by `get_queue` exist in the store. -/
theorem get_queue_exists (v : Int) (s' : List Job) :
    ∀ t ∈ get_queue v s', ∃ j ∈ s', j.id = t.id := by
  intro t ht
  exact ⟨t, List.mem_of_mem_filter ht, rfl⟩

/-- A non-terminal row of a user belongs to that user's fetched queue. -/
theorem mem_get_queue (v : Int) (s' : List Job) (j : Job) (hj : j ∈ s')
    (huser : j.user_id = v) (hfin : j.finished = false) (hcanc : j.cancelled = false) :
    j ∈ get_queue v s' := by
  refine List.mem_filter.mpr ⟨hj, ?_⟩
  simp [huser, hfin, hcanc]

/-- C10: the cancel-all operation cancels every non-terminal job of the
caller and kills its transcription process; when the caller is in the
superusers set it additionally cancels (and kills the process of) every
non-terminal job recorded under the downloads sentinel user id 0; a caller
outside the superusers set leaves every other user's row untouched. -/
theorem cancel_audio_processing_correct (superusers : List Int) (u : Int) (s : List Job)
    (hids : (s.map Job.id).Nodup) :
    (∀ j ∈ s, j.user_id = u → j.finished = false → j.cancelled = false →
      (∃ j' ∈ (cancel_audio_processing superusers u s).1,
          j'.id = j.id ∧ j'.cancelled = true ∧ j'.is_active = false) ∧
      j.id ∈ (cancel_audio_processing superusers u s).2) ∧
    (u ∈ superusers → ∀ j ∈ s, j.user_id = DOWNLOADS_USER_ID → j.finished = false →
      j.cancelled = false →
      (∃ j' ∈ (cancel_audio_processing superusers u s).1,
          j'.id = j.id ∧ j'.cancelled = true ∧ j'.is_active = false) ∧
      j.id ∈ (cancel_audio_processing superusers u s).2) ∧
    (u ∉ superusers → ∀ j ∈ s, j.user_id ≠ u →
      j ∈ (cancel_audio_processing superusers u s).1) := by
  have hstore1 : (cancelLoop (get_queue u s) s []).1 =
      s.map (cancelByIds ((get_queue u s).map Job.id)) := cancelLoop_store _ _ _
  have hkill1 : (cancelLoop (get_queue u s) s []).2 = (get_queue u s).map Job.id := by
    simpa using cancelLoop_killed (get_queue u s) s [] (get_queue_exists u s)
  by_cases hsu : u ∈ superusers
  · have hres : cancel_audio_processing superusers u s =
        cancelLoop (get_queue DOWNLOADS_USER_ID (s.map (cancelByIds ((get_queue u s).map Job.id))))
          (s.map (cancelByIds ((get_queue u s).map Job.id)))
          ((get_queue u s).map Job.id) := by
      unfold cancel_audio_processing
      rw [if_pos hsu, hstore1, hkill1]
    set s1 := s.map (cancelByIds ((get_queue u s).map Job.id)) with hs1
    have hstore2 : (cancelLoop (get_queue DOWNLOADS_USER_ID s1) s1
          ((get_queue u s).map Job.id)).1 =
        s1.map (cancelByIds ((get_queue DOWNLOADS_USER_ID s1).map Job.id)) :=
      cancelLoop_store _ _ _
    have hkill2 : (cancelLoop (get_queue DOWNLOADS_USER_ID s1) s1
          ((get_queue u s).map Job.id)).2 =
        (get_queue u s).map Job.id ++ (get_queue DOWNLOADS_USER_ID s1).map Job.id :=
      cancelLoop_killed _ _ _ (get_queue_exists DOWNLOADS_USER_ID s1)
    have hcancelled : ∀ j ∈ s, j.id ∈ (get_queue u s).map Job.id →
        (∃ j' ∈ (cancel_audio_processing superusers u s).1,
            j'.id = j.id ∧ j'.cancelled = true ∧ j'.is_active = false) ∧
        j.id ∈ (cancel_audio_processing superusers u s).2 := by
      intro j hj hin
      constructor
      · refine ⟨cancelByIds ((get_queue DOWNLOADS_USER_ID s1).map Job.id)
            (cancelByIds ((get_queue u s).map Job.id) j), ?_, ?_⟩
        · rw [hres, hstore2]
          exact List.mem_map_of_mem _ (List.mem_map_of_mem _ hj)
        · have h1 : cancelByIds ((get_queue u s).map Job.id) j = cancelJob j := by
            unfold cancelByIds
            rw [if_pos hin]
          rw [h1, cancelByIds_cancelJob]
          exact ⟨rfl, rfl, rfl⟩
      · rw [hres, hkill2]
        exact List.mem_append_left _ hin
    refine ⟨?_, ?_, ?_⟩
    · intro j hj huser hfin hcanc
      exact hcancelled j hj
        (List.mem_map_of_mem _ (mem_get_queue u s j hj huser hfin hcanc))
    · intro _ j hj huser hfin hcanc
      by_cases hin : j.id ∈ (get_queue u s).map Job.id
      · exact hcancelled j hj hin
      · have hfix : cancelByIds ((get_queue u s).map Job.id) j = j := by
          unfold cancelByIds
          rw [if_neg hin]
        have hjs1 : j ∈ s1 := hfix ▸ List.mem_map_of_mem _ hj
        have hid2 : j.id ∈ (get_queue DOWNLOADS_USER_ID s1).map Job.id :=
          List.mem_map_of_mem _ (mem_get_queue DOWNLOADS_USER_ID s1 j hjs1 huser hfin hcanc)
        constructor
        · refine ⟨cancelByIds ((get_queue DOWNLOADS_USER_ID s1).map Job.id)
              (cancelByIds ((get_queue u s).map Job.id) j), ?_, ?_⟩
          · rw [hres, hstore2]
            exact List.mem_map_of_mem _ (List.mem_map_of_mem _ hj)
          · rw [hfix]
            unfold cancelByIds
            rw [if_pos hid2]
            exact ⟨rfl, rfl, rfl⟩
        · rw [hres, hkill2]
          exact List.mem_append_right _ hid2
    · intro h
      exact absurd hsu h
  · have hres : cancel_audio_processing superusers u s = cancelLoop (get_queue u s) s [] := by
      unfold cancel_audio_processing
      rw [if_neg hsu]
    refine ⟨?_, ?_, ?_⟩
    · intro j hj huser hfin hcanc
      have hin : j.id ∈ (get_queue u s).map Job.id :=
        List.mem_map_of_mem _ (mem_get_queue u s j hj huser hfin hcanc)
      constructor
      · refine ⟨cancelByIds ((get_queue u s).map Job.id) j, ?_, ?_⟩
        · rw [hres, hstore1]
          exact List.mem_map_of_mem _ hj
        · unfold cancelByIds
          rw [if_pos hin]
          exact ⟨rfl, rfl, rfl⟩
      · rw [hres, hkill1]
        exact hin
    · intro h
      exact absurd h hsu
    · intro _ j hj hne
      have hnin : ¬ j.id ∈ (get_queue u s).map Job.id := by
        intro hin
        obtain ⟨t, ht, htid⟩ := List.mem_map.mp hin
        have hts : t ∈ s := List.mem_of_mem_filter ht
        have htu : t.user_id = u := by
          have hcond := (List.mem_filter.mp ht).2
          simp only [Bool.and_eq_true, beq_iff_eq] at hcond
          exact hcond.1.1
        have := List.inj_on_of_nodup_map hids hts hj htid
        rw [this] at htu
        exact hne htu
      have hfix : cancelByIds ((get_queue u s).map Job.id) j = j := by
        unfold cancelByIds
        rw [if_neg hnin]
      rw [hres, hstore1]
      exact hfix ▸ List.mem_map_of_mem _ hj

/-- A non-terminal row enrolled by the downloads watcher (sentinel user 0). -/
def downloadsRow : Job :=
  { id := 2, user_id := 0, file_path := "/downloads/b.mp3", file_name := "b.mp3",
    file_size_mb := 4, message_id := 0, chat_id := 0,
    is_active := false, finished := false, cancelled := false }

/-- Witness: a superuser cancelling also kills the process of a downloads job. -/
theorem cancel_audio_processing_correct_witness :
    (2 : Nat) ∈ (cancel_audio_processing [9] 9 [readyRow, downloadsRow]).2 :=
  ((cancel_audio_processing_correct [9] 9 [readyRow, downloadsRow] (by decide)).2.1
    (by decide) downloadsRow (by decide) rfl rfl rfl).2
